import Mathlib

/-!
Shallow embedding of the Twitch MCP autonomous server (`src/index.ts`).
JavaScript strings are modelled through `String.data : List Char`; the
relevant JS string operations (`includes`, `toLowerCase`, `trim`,
`substring`, `slice`) are reimplemented below over lists of characters.
External collaborators (the IRC client, the Twitch REST API, the user-id
lookup) are passed in as an explicit environment, and the executor records
every collaborator invocation in an effect trace so that "no API call was
made" is expressible.
-/

namespace TwitchMCP

/-! ## JavaScript string primitives -/

/-- The ASCII members of the JavaScript `\s` class (used by `trim` and `\s+`). -/
def isJsSpace (c : Char) : Bool :=
  c = ' ' || c = '\t' || c = '\n' || c = '\r' || c = '\x0b' || c = '\x0c'

/-- `listStartsWith s p` holds when `p` is a prefix of `s`. -/
def listStartsWith : List Char → List Char → Bool
  | _, [] => true
  | [], _ :: _ => false
  | c :: cs, p :: ps => c = p && listStartsWith cs ps

/-- Substring containment, the model of JS `String.prototype.includes`. -/
def listContains : List Char → List Char → Bool
  | [], pat => listStartsWith [] pat
  | s@(_ :: rest), pat => listStartsWith s pat || listContains rest pat

/-- JS `haystack.includes(needle)`. -/
def strContains (s pat : String) : Bool := listContains s.data pat.data

/-- JS `s.toLowerCase()` (ASCII, which is all the source uses). -/
def lowerS (s : String) : String := String.mk (s.data.map Char.toLower)

/-- Strip JS whitespace from both ends of a character list. -/
def trimL (l : List Char) : List Char :=
  ((l.dropWhile isJsSpace).reverse.dropWhile isJsSpace).reverse

/-- JS `s.trim()`. -/
def trimS (s : String) : String := String.mk (trimL s.data)

/-- JS `s.substring(0, n)`. -/
def substring0 (s : String) (n : Nat) : String := String.mk (s.data.take n)

/-- JS string coercion of a possibly-`undefined` value (template literals and
`String()` render `undefined` as `"undefined"`). -/
def jsDisplay (o : Option String) : String := o.getD "undefined"

/-- JS `a || b` for a possibly-absent string argument: `undefined` and the
empty string are falsy. -/
def jsOrStr (o : Option String) (dflt : String) : String :=
  match o with
  | some s => if s = "" then dflt else s
  | none => dflt

/-- JS `a || b` for a possibly-absent number argument: `undefined` and `0`
are falsy. -/
def jsOrNat (o : Option Nat) (dflt : Nat) : Nat :=
  match o with
  | some n => if n = 0 then dflt else n
  | none => dflt

/-! ## Chat message buffer (`recentMessages`, `addChatMessage`) -/

/-- `ChatMessage { username, content, timestamp }` from `src/index.ts`;
the JS `Date` timestamp is modelled as a natural number. -/
structure ChatMessage where
  username : String
  content : String
  timestamp : Nat
deriving DecidableEq

/-- `const MAX_MESSAGES = 100`. -/
def MAX_MESSAGES : Nat := 100

/-- `addChatMessage`: push the new message, then `shift()` the oldest one
out when the buffer exceeds `MAX_MESSAGES`. -/
def addChatMessage (buf : List ChatMessage) (m : ChatMessage) : List ChatMessage :=
  let l := buf ++ [m]
  if MAX_MESSAGES < l.length then l.drop 1 else l

/-- `getRecentChatLog`: `recentMessages.slice(-n)` formatted as
`username: content` lines. -/
def getRecentChatLog (msgs : List ChatMessage) (n : Nat) : List String :=
  (msgs.drop (msgs.length - n)).map (fun m => m.username ++ ": " ++ m.content)

/-! ## Descriptor keywords and `findUserByDescriptor` -/

/-- `DESCRIPTOR_KEYWORDS.toxic`. -/
def toxicKeywords : List String :=
  ["idiot", "stupid", "hate", "kill", "dumb", "trash", "noob", "loser",
   "shut up", "annoying", "toxic", "rude", "mean", "sucks", "bad", "worst",
   "report", "ban"]

/-- `DESCRIPTOR_KEYWORDS.spam`. -/
def spamKeywords : List String :=
  ["buy followers", "free", "promo", "visit", "http", "www", "spam",
   "emote", "caps", "repeated"]

/-- `DESCRIPTOR_KEYWORDS.rude`. -/
def rudeKeywords : List String :=
  ["shut up", "idiot", "stupid", "dumb", "annoying", "rude", "mean",
   "trash", "loser", "bad", "worst"]

/-- `DESCRIPTOR_KEYWORDS[descriptor.toLowerCase()] || [descriptor]`. -/
def keywordsFor (descriptor : String) : List String :=
  let k := lowerS descriptor
  if k = "toxic" then toxicKeywords
  else if k = "spam" then spamKeywords
  else if k = "rude" then rudeKeywords
  else [descriptor]

/-- One step of `userScores.set(u, (userScores.get(u) || 0) + 1)` on an
insertion-ordered association list (the model of a JS `Map`): updating an
existing key keeps its position, a new key is appended. -/
def bump : List (String × Nat) → String → List (String × Nat)
  | [], u => [(u, 1)]
  | (v, n) :: rest, u =>
    if v = u then (v, n + 1) :: rest else (v, n) :: bump rest u

/-- The inner keyword loop of `findUserByDescriptor` for one message. -/
def scoreStep (keywords : List String) (sc : List (String × Nat))
    (m : ChatMessage) : List (String × Nat) :=
  keywords.foldl
    (fun sc k => if strContains (lowerS m.content) k then bump sc m.username else sc)
    sc

/-- The full message scan of `findUserByDescriptor`. -/
def buildScores (keywords : List String) (msgs : List ChatMessage) :
    List (String × Nat) :=
  msgs.foldl (scoreStep keywords) []

/-- Stable insertion (descending by score) for the model of
`Array.prototype.sort(([,a],[,b]) => b - a)`; ES2019 requires the sort to
be stable, so equal scores keep their relative (insertion) order. -/
def insertDesc (x : String × Nat) : List (String × Nat) → List (String × Nat)
  | [] => [x]
  | y :: ys => if x.2 < y.2 then y :: insertDesc x ys else x :: y :: ys

/-- Stable sort by score descending. -/
def sortByScoreDesc : List (String × Nat) → List (String × Nat)
  | [] => []
  | x :: xs => insertDesc x (sortByScoreDesc xs)

/-- `findUserByDescriptor`: keyword-score every buffered message and return
the top-scoring username (`sort(...)[0][0]`), or `null` when nobody scored. -/
def findUserByDescriptor (msgs : List ChatMessage) (descriptor : String) :
    Option String :=
  let keywords := keywordsFor descriptor
  let userScores := buildScores keywords msgs
  if userScores.isEmpty then none
  else ((sortByScoreDesc userScores).head?).map Prod.fst

/-! ### Specification-side views of the scan, used to state properties -/

/-- The keys of the score map, in insertion order. -/
def keysOf (sc : List (String × Nat)) : List String := sc.map Prod.fst

/-- `userScores.get(a) || 0`: the score stored for `a` (first matching
entry; keys are unique in a JS `Map`). -/
def cnt : List (String × Nat) → String → Nat
  | [], _ => 0
  | e :: sc, a => if e.1 = a then e.2 else cnt sc a

/-- First index of an element in a list of strings. -/
def idxOfA : List String → String → Option Nat
  | [], _ => none
  | x :: xs, a => if x = a then some 0 else (idxOfA xs a).map (· + 1)

/-- A message qualifies when its lowercased content contains some keyword. -/
def qual (keywords : List String) (m : ChatMessage) : Bool :=
  keywords.any (fun k => strContains (lowerS m.content) k)

/-- Number of keywords contained in the message (the scan increments once
per contained keyword). -/
def hitCount (keywords : List String) (m : ChatMessage) : Nat :=
  (keywords.filter (fun k => strContains (lowerS m.content) k)).length

/-- The score the scan assigns to username `w`, as a direct sum. -/
def descScore (keywords : List String) : List ChatMessage → String → Nat
  | [], _ => 0
  | m :: ms, w =>
    (if m.username = w then hitCount keywords m else 0) + descScore keywords ms w

/-- Index of the first qualifying message authored by `u` (the message that
first inserts `u` into the score map). -/
def fqi (keywords : List String) (u : String) : List ChatMessage → Option Nat
  | [] => none
  | m :: ms =>
    if m.username = u ∧ qual keywords m = true then some 0
    else (fqi keywords u ms).map (· + 1)

/-- The first entry of the list attaining the maximal score — what a stable
descending sort puts at index 0. -/
def firstMax : List (String × Nat) → Option (String × Nat)
  | [] => none
  | x :: xs =>
    match firstMax xs with
    | none => some x
    | some y => if x.2 < y.2 then some y else some x

/-- Invariant tying the score map after scanning the prefix `pre` to the
messages themselves: stored scores agree with `descScore`, a username is a
key exactly when it has a qualifying message, keys are unique and ordered
by first qualifying message, and every stored score is positive. -/
structure ScanInv (kws : List String) (pre : List ChatMessage)
    (sc : List (String × Nat)) : Prop where
  score_eq : ∀ w, cnt sc w = descScore kws pre w
  mem_iff : ∀ a, a ∈ keysOf sc ↔ (fqi kws a pre).isSome = true
  order : ∀ a b i j, idxOfA (keysOf sc) a = some i →
    idxOfA (keysOf sc) b = some j → i < j →
    ∃ ia ib, fqi kws a pre = some ia ∧ fqi kws b pre = some ib ∧ ia < ib
  nodupKeys : (keysOf sc).Nodup
  pos : ∀ e ∈ sc, 1 ≤ e.2

/-! ## `resolveModerationTarget` -/

/-- The character class `[a-zA-Z0-9_]`. -/
def isWordChar (c : Char) : Bool := c.isAlphanum || c = '_'

/-- `/^[a-zA-Z0-9_]{3,25}$/.test(input.trim())`. -/
def isLiteralShape (input : String) : Bool :=
  let t := trimL input.data
  decide (3 ≤ t.length) && decide (t.length ≤ 25) && t.all isWordChar

/-- `"user named".data`. -/
def unPat : List Char := "user named".data

/-- A match of `user named\s+` starts here: the literal text followed by at
least one whitespace character. -/
def matchesUN (l : List Char) : Bool :=
  listStartsWith l unPat &&
    (match l.drop unPat.length with
     | c :: _ => isJsSpace c
     | [] => false)

/-- The greedy-`.*` part of `/.*user named\s+/`: the last position in the
current line (`.` does not cross `'\n'`) where `user named\s+` matches;
returns the remainder after also consuming the greedy `\s+` run. -/
def lastUN : List Char → Option (List Char)
  | [] => none
  | s@(c :: rest) =>
    if c = '\n' then none
    else
      match lastUN rest with
      | some r => some r
      | none =>
        if matchesUN s then some ((s.drop unPat.length).dropWhile isJsSpace)
        else none

/-- `input.replace(/.*user named\s+/, "")`: scan for the first position from
which the pattern matches (the start of the first line containing
`user named` followed by whitespace), keep everything before it, and drop
the matched span. -/
def replaceUNList : List Char → List Char
  | [] => []
  | s@(c :: rest) =>
    match lastUN s with
    | some r => r
    | none => c :: replaceUNList rest

/-- `input.replace(/.*user named\s+/, "")` on strings. -/
def replaceUserNamed (s : String) : String := String.mk (replaceUNList s.data)

/-- `resolveModerationTarget`: `null` for empty/whitespace input; the literal
path for `user named` phrases and literal-username-shaped input (returning
the canonical casing of the first buffered username containing the
candidate, else the candidate itself); `null` for everything else ("Let LLM
review chat log").  The argument is an `Option` because the tool executor
passes a possibly-missing parameter through `input?.trim()`. -/
def resolveModerationTarget (msgs : List ChatMessage) (input : Option String) :
    Option String :=
  match input with
  | none => none
  | some s =>
    if trimS s = "" then none
    else
      let lowered := lowerS s
      if strContains lowered "user named" || isLiteralShape s then
        let username := trimS (replaceUserNamed s)
        match msgs.find? (fun m => strContains (lowerS m.username) (lowerS username)) with
        | some m => some m.username
        | none => some username
      else none

/-! ## `guessTimeoutDuration` and `safeJsonStringify` -/

/-- `guessTimeoutDuration`: keyword families over the lowercased reason,
tested in source order. -/
def guessTimeoutDuration (reason : String) : Nat :=
  let lowerReason := lowerS reason
  if strContains lowerReason "spam" || strContains lowerReason "caps" ||
      strContains lowerReason "emote" then 300
  else if strContains lowerReason "toxic" || strContains lowerReason "rude" ||
      strContains lowerReason "mean" then 1800
  else if strContains lowerReason "severe" || strContains lowerReason "serious" then 3600
  else 600

/-- `safeJsonStringify`: the outcome of the (external) `JSON.stringify` call
is passed in as an `Except` — `.error` models a thrown serialization error,
which the function catches and renders. -/
def safeJsonStringify (serialized : Except String String) (maxLength : Nat) :
    String :=
  match serialized with
  | .ok json =>
    if maxLength < json.length then
      substring0 json maxLength ++ "\n\n[Output truncated due to length]"
    else json
  | .error e => "[JSON stringify error: " ++ e ++ "]"

/-! ## The autonomous action executor (`mcpExecutor`) and the moderation tools

Collaborator calls are recorded as effects; a thrown collaborator error is
an `Except.error`, which the executor's `catch` turns into a structured
`success: false` result. -/

/-- A Twitch API response; `dataIds` models `response.data[].id`. -/
structure ApiResponse where
  dataIds : List String
deriving DecidableEq

/-- One collaborator invocation. -/
inductive Effect
  | ircSay : String → String → Effect
  | logChat : String → String → Effect
  | api : String → String → Effect
  | userIdLookup : String → Effect
deriving DecidableEq

/-- The `result` payload of a successful executor case. -/
inductive ResultData
  | sentMessage : Option String → ResultData
  | timeoutDone : String → Nat → Option String → ResultData
  | banDone : String → Option String → ResultData
  | apiResp : ApiResponse → ResultData
  | titleSet : Option String → ResultData
  | categorySet : String → String → ResultData
deriving DecidableEq

/-- `{ success, result, error? }` as returned by `mcpExecutor`. -/
structure ExecResult where
  success : Bool
  result : Option ResultData
  error : Option String
deriving DecidableEq

/-- The parameter mapping handed to the executor; every field may be absent
(`undefined` in JS). -/
structure ToolParams where
  message : Option String
  usernameOrDescriptor : Option String
  reason : Option String
  duration : Option Nat
  title : Option String
  choices : Option String
  outcomes : Option String
  category : Option String
deriving DecidableEq

/-- The world outside the executor: the buffered messages, configuration
strings, and outcomes of the external collaborators. -/
structure ExecEnv where
  messages : List ChatMessage
  channel : String
  broadcasterId : String
  ircAvailable : Bool
  sayOutcome : Except String Unit
  api : String → String → Except String ApiResponse
  userId : String → Option String

/-- `parameters.duration || guessTimeoutDuration(parameters.reason || '')`. -/
def timeoutDurationOf (p : ToolParams) : Nat :=
  jsOrNat p.duration (guessTimeoutDuration (jsOrStr p.reason ""))

/-- The default branch of the executor switch. -/
def unknownToolFailure (toolName : String) : ExecResult :=
  ⟨false, none, some ("Unknown tool: " ++ toolName)⟩

/-- `case 'sendMessageToChat'`. -/
def execSend (env : ExecEnv) (p : ToolParams) : ExecResult × List Effect :=
  if env.ircAvailable then
    let msg := jsDisplay p.message
    match env.sayOutcome with
    | .error e => (⟨false, none, some e⟩, [.ircSay env.channel msg])
    | .ok _ =>
      (⟨true, some (.sentMessage p.message), none⟩,
       [.ircSay env.channel msg, .logChat env.channel ("[BOT] " ++ msg)])
  else (⟨false, none, some "IRC connection not available"⟩, [])

/-- `case 'timeoutUser'`. -/
def execTimeout (env : ExecEnv) (p : ToolParams) : ExecResult × List Effect :=
  match resolveModerationTarget env.messages p.usernameOrDescriptor with
  | none => (⟨false, none, some "Could not resolve target user"⟩, [])
  | some targetUser =>
    match env.userId targetUser with
    | none =>
      (⟨false, none, some ("Could not resolve user ID for " ++ targetUser)⟩,
       [.userIdLookup targetUser])
    | some _ =>
      let duration := timeoutDurationOf p
      match env.api "/moderation/bans" "POST" with
      | .error e =>
        (⟨false, none, some e⟩,
         [.userIdLookup targetUser, .api "/moderation/bans" "POST"])
      | .ok _ =>
        (⟨true, some (.timeoutDone targetUser duration p.reason), none⟩,
         [.userIdLookup targetUser, .api "/moderation/bans" "POST"])

/-- `case 'banUser'`. -/
def execBan (env : ExecEnv) (p : ToolParams) : ExecResult × List Effect :=
  match resolveModerationTarget env.messages p.usernameOrDescriptor with
  | none => (⟨false, none, some "Could not resolve target user"⟩, [])
  | some targetUser =>
    match env.userId targetUser with
    | none =>
      (⟨false, none, some ("Could not resolve user ID for " ++ targetUser)⟩,
       [.userIdLookup targetUser])
    | some _ =>
      match env.api "/moderation/bans" "POST" with
      | .error e =>
        (⟨false, none, some e⟩,
         [.userIdLookup targetUser, .api "/moderation/bans" "POST"])
      | .ok _ =>
        (⟨true, some (.banDone targetUser p.reason), none⟩,
         [.userIdLookup targetUser, .api "/moderation/bans" "POST"])

/-- `case 'createTwitchPoll'`; a missing `choices` makes
`parameters.choices.split` throw a `TypeError` which the catch captures. -/
def execPoll (env : ExecEnv) (p : ToolParams) : ExecResult × List Effect :=
  match p.choices with
  | none =>
    (⟨false, none,
      some "TypeError: Cannot read properties of undefined (reading 'split')"⟩, [])
  | some _ =>
    match env.api "/polls" "POST" with
    | .error e => (⟨false, none, some e⟩, [.api "/polls" "POST"])
    | .ok r => (⟨true, some (.apiResp r), none⟩, [.api "/polls" "POST"])

/-- `case 'createTwitchPrediction'`; a missing `outcomes` throws a
`TypeError` which the catch captures. -/
def execPrediction (env : ExecEnv) (p : ToolParams) : ExecResult × List Effect :=
  match p.outcomes with
  | none =>
    (⟨false, none,
      some "TypeError: Cannot read properties of undefined (reading 'split')"⟩, [])
  | some _ =>
    match env.api "/predictions" "POST" with
    | .error e => (⟨false, none, some e⟩, [.api "/predictions" "POST"])
    | .ok r => (⟨true, some (.apiResp r), none⟩, [.api "/predictions" "POST"])

/-- `case 'createTwitchClip'`. -/
def execClip (env : ExecEnv) : ExecResult × List Effect :=
  match env.api ("/clips?broadcaster_id=" ++ env.broadcasterId) "POST" with
  | .error e =>
    (⟨false, none, some e⟩, [.api ("/clips?broadcaster_id=" ++ env.broadcasterId) "POST"])
  | .ok r =>
    (⟨true, some (.apiResp r), none⟩,
     [.api ("/clips?broadcaster_id=" ++ env.broadcasterId) "POST"])

/-- `case 'updateStreamTitle'`. -/
def execTitle (env : ExecEnv) (p : ToolParams) : ExecResult × List Effect :=
  match env.api "/channels" "PATCH" with
  | .error e => (⟨false, none, some e⟩, [.api "/channels" "PATCH"])
  | .ok _ => (⟨true, some (.titleSet p.title), none⟩, [.api "/channels" "PATCH"])

/-- `case 'updateStreamCategory'`; the search query is
`encodeURIComponent(parameters.category)` (encoding elided). -/
def execCategory (env : ExecEnv) (p : ToolParams) : ExecResult × List Effect :=
  match env.api ("/search/categories?query=" ++ jsDisplay p.category) "GET" with
  | .error e =>
    (⟨false, none, some e⟩,
     [.api ("/search/categories?query=" ++ jsDisplay p.category) "GET"])
  | .ok r =>
    match r.dataIds with
    | [] =>
      (⟨false, none, some ("Could not find category: " ++ jsDisplay p.category)⟩,
       [.api ("/search/categories?query=" ++ jsDisplay p.category) "GET"])
    | categoryId :: _ =>
      match env.api "/channels" "PATCH" with
      | .error e =>
        (⟨false, none, some e⟩,
         [.api ("/search/categories?query=" ++ jsDisplay p.category) "GET",
          .api "/channels" "PATCH"])
      | .ok _ =>
        (⟨true, some (.categorySet (jsDisplay p.category) categoryId), none⟩,
         [.api ("/search/categories?query=" ++ jsDisplay p.category) "GET",
          .api "/channels" "PATCH"])

/-- The tool names the executor switch recognizes. -/
def recognizedToolNames : List String :=
  ["sendMessageToChat", "timeoutUser", "banUser", "createTwitchPoll",
   "createTwitchPrediction", "createTwitchClip", "updateStreamTitle",
   "updateStreamCategory"]

/-- The `mcpExecutor` switch: dispatch on the tool name, falling through to
the structured unknown-tool failure. -/
def mcpExecutor (env : ExecEnv) (toolName : String) (p : ToolParams) :
    ExecResult × List Effect :=
  if toolName = "sendMessageToChat" then execSend env p
  else if toolName = "timeoutUser" then execTimeout env p
  else if toolName = "banUser" then execBan env p
  else if toolName = "createTwitchPoll" then execPoll env p
  else if toolName = "createTwitchPrediction" then execPrediction env p
  else if toolName = "createTwitchClip" then execClip env
  else if toolName = "updateStreamTitle" then execTitle env p
  else if toolName = "updateStreamCategory" then execCategory env p
  else (unknownToolFailure toolName, [])

/-! ## The `timeoutUser` / `banUser` MCP tool handlers -/

/-- The text content of a tool reply. -/
structure ToolReply where
  text : String
deriving DecidableEq

/-- The fallback reply when no target could be resolved. -/
def chatLogFallbackText (msgs : List ChatMessage) : String :=
  "No explicit username provided. Here are the last 20 chat messages:\n" ++
    String.intercalate "\n" (getRecentChatLog msgs 20)

/-- The `timeoutUser` MCP tool handler. -/
def timeoutUserTool (env : ExecEnv) (usernameOrDescriptor : String)
    (reason : Option String) : ToolReply × List Effect :=
  match resolveModerationTarget env.messages (some usernameOrDescriptor) with
  | none => (⟨chatLogFallbackText env.messages⟩, [])
  | some targetUser =>
    match env.userId targetUser with
    | none =>
      (⟨"Could not resolve user ID for username: " ++ targetUser⟩,
       [.userIdLookup targetUser])
    | some _ =>
      let timeoutReason := jsOrStr reason "inappropriate behavior"
      let duration := guessTimeoutDuration timeoutReason
      match env.api "/moderation/bans" "POST" with
      | .error e =>
        (⟨"Error timing out user: " ++ e⟩,
         [.userIdLookup targetUser, .api "/moderation/bans" "POST"])
      | .ok _ =>
        (⟨"Successfully timed out " ++ targetUser ++ " for " ++ toString duration ++
            " seconds. Reason: " ++ timeoutReason⟩,
         [.userIdLookup targetUser, .api "/moderation/bans" "POST"])

/-- The `banUser` MCP tool handler. -/
def banUserTool (env : ExecEnv) (usernameOrDescriptor : String)
    (reason : Option String) : ToolReply × List Effect :=
  match resolveModerationTarget env.messages (some usernameOrDescriptor) with
  | none => (⟨chatLogFallbackText env.messages⟩, [])
  | some targetUser =>
    match env.userId targetUser with
    | none =>
      (⟨"Could not resolve user ID for username: " ++ targetUser⟩,
       [.userIdLookup targetUser])
    | some _ =>
      let banReason := jsOrStr reason "severe violation of chat rules"
      match env.api "/moderation/bans" "POST" with
      | .error e =>
        (⟨"Error banning user: " ++ e⟩,
         [.userIdLookup targetUser, .api "/moderation/bans" "POST"])
      | .ok _ =>
        (⟨"Successfully banned " ++ targetUser ++ ". Reason: " ++ banReason⟩,
         [.userIdLookup targetUser, .api "/moderation/bans" "POST"])

/-! ## Concrete fixtures -/

/-- The three-message fixture from the specification. -/
def toxicFixture : List ChatMessage :=
  [⟨"alice", "you're an idiot", 0⟩, ⟨"bob", "idiot much?", 1⟩, ⟨"alice", "so dumb", 2⟩]

/-- A two-message tie fixture: both users score exactly one toxic keyword. -/
def tieFixture : List ChatMessage :=
  [⟨"alice", "idiot", 0⟩, ⟨"bob", "idiot", 1⟩]

/-- An environment with no buffered messages and failing collaborators. -/
def envEmpty : ExecEnv :=
  ⟨[], "chan", "42", false, .ok (), fun _ _ => .error "api unreachable", fun _ => none⟩

/-- An environment whose user-id lookup finds nobody. -/
def envNoUsers : ExecEnv :=
  ⟨[], "chan", "42", true, .ok (), fun _ _ => .ok ⟨[]⟩, fun _ => none⟩

/-- The all-absent parameter mapping. -/
def paramsEmpty : ToolParams := ⟨none, none, none, none, none, none, none, none⟩

end TwitchMCP

namespace TwitchMCP

/-! # Theorems -/

/-! ## C2: the bounded FIFO buffer -/

theorem drop_append_le {α : Type} (l r : List α) (k : Nat) (h : k ≤ l.length) :
    (l ++ r).drop k = l.drop k ++ r := by
  induction l generalizing k with
  | nil =>
    have : k = 0 := Nat.le_zero.mp h
    simp [this]
  | cons a l ih =>
    cases k with
    | zero => simp
    | succ k =>
      simp only [List.cons_append, List.drop_succ_cons]
      exact ih k (Nat.le_of_succ_le_succ h)

theorem foldl_addChatMessage_drop (ms : List ChatMessage) :
    ∀ buf : List ChatMessage, buf.length ≤ MAX_MESSAGES →
      ms.foldl addChatMessage buf = (buf ++ ms).drop ((buf ++ ms).length - MAX_MESSAGES) := by
  induction ms with
  | nil =>
    intro buf h
    simp [Nat.sub_eq_zero_of_le h]
  | cons m ms ih =>
    intro buf h
    have hstep : List.foldl addChatMessage buf (m :: ms)
        = List.foldl addChatMessage (addChatMessage buf m) ms := rfl
    rw [hstep]
    by_cases hlen : MAX_MESSAGES < (buf ++ [m]).length
    · have hbuf : buf.length = MAX_MESSAGES := by
        simp only [List.length_append, List.length_singleton] at hlen
        omega
      have hadd : addChatMessage buf m = (buf ++ [m]).drop 1 := by
        show (if MAX_MESSAGES < (buf ++ [m]).length then (buf ++ [m]).drop 1
          else buf ++ [m]) = (buf ++ [m]).drop 1
        rw [if_pos hlen]
      have hlen2 : ((buf ++ [m]).drop 1).length ≤ MAX_MESSAGES := by
        simp only [List.length_drop, List.length_append, List.length_singleton]
        omega
      rw [hadd, ih _ hlen2]
      have h1 : ((buf ++ [m]) ++ ms).drop 1 = (buf ++ [m]).drop 1 ++ ms :=
        drop_append_le (buf ++ [m]) ms 1 (by simp)
      rw [← h1, List.drop_drop]
      have h2 : (buf ++ [m]) ++ ms = buf ++ m :: ms := by simp
      rw [h2]
      congr 1
      simp only [List.length_drop, List.length_append, List.length_cons,
        List.length_singleton]
      omega
    · have hadd : addChatMessage buf m = buf ++ [m] := by
        show (if MAX_MESSAGES < (buf ++ [m]).length then (buf ++ [m]).drop 1
          else buf ++ [m]) = buf ++ [m]
        rw [if_neg hlen]
      have hlen2 : (buf ++ [m]).length ≤ MAX_MESSAGES := Nat.le_of_not_lt hlen
      rw [hadd, ih _ hlen2]
      have h2 : (buf ++ [m]) ++ ms = buf ++ m :: ms := by simp
      rw [h2]

theorem foldl_addChatMessage_nil (ms : List ChatMessage) :
    ms.foldl addChatMessage [] = ms.drop (ms.length - MAX_MESSAGES) := by
  have h := foldl_addChatMessage_drop ms [] (by simp [MAX_MESSAGES])
  simpa using h

/-- C2: for every sequence of appended messages, the retained log has length
`min N 100` and consists of exactly the most recent `min N 100` messages in
insertion order (oldest-first eviction only). -/
theorem chatBuffer_fifo (ms : List ChatMessage) :
    (ms.foldl addChatMessage []).length = min ms.length MAX_MESSAGES ∧
    ms.foldl addChatMessage [] = ms.drop (ms.length - MAX_MESSAGES) := by
  refine ⟨?_, foldl_addChatMessage_nil ms⟩
  rw [foldl_addChatMessage_nil ms]
  simp only [List.length_drop]
  omega

/-! ## C1: descriptor resolution -/

/-- C1 counterexample: resolving "toxic" over the three-message fixture does
not return "alice" — "toxic" matches the literal-username shape, so
`resolveModerationTarget` takes the literal path and returns "toxic"
verbatim; the descriptor keyword scan is never consulted. -/
theorem resolveTarget_toxic_counterexample :
    resolveModerationTarget toxicFixture (some "toxic") = some "toxic" ∧
    (some "toxic" : Option String) ≠ some "alice" := by
  constructor
  · decide
  · decide

/-- C1 amended: `resolveModerationTarget` itself performs no keyword
scoring — every input that is neither literal-username-shaped nor contains
"user named" resolves to `none` (deferring to the chat log); the keyword
scoring described by the claim lives in the helper `findUserByDescriptor`
(never invoked by `resolveModerationTarget`), which over the fixture does
return "alice" for "toxic". -/
theorem resolveTarget_descriptor_amended :
    (∀ (msgs : List ChatMessage) (input : String),
        strContains (lowerS input) "user named" = false →
        isLiteralShape input = false →
        resolveModerationTarget msgs (some input) = none) ∧
    findUserByDescriptor toxicFixture "toxic" = some "alice" := by
  constructor
  · intro msgs input h1 h2
    unfold resolveModerationTarget
    by_cases ht : trimS input = ""
    · simp [ht]
    · simp [ht, h1, h2]
  · decide

/-- C1 amended witness at concrete inputs. -/
theorem resolveTarget_descriptor_amended_witness :
    resolveModerationTarget [] (some "the toxic troll over there") = none ∧
    findUserByDescriptor toxicFixture "toxic" = some "alice" :=
  ⟨resolveTarget_descriptor_amended.1 [] "the toxic troll over there"
      (by decide) (by decide),
   resolveTarget_descriptor_amended.2⟩

/-! ## C4: the chat-log fallback of the timeout/ban tools -/

/-- C4: when the target does not resolve, both moderation tools reply with
the raw last-20 chat log and perform no collaborator call at all (empty
effect trace — in particular no moderation API call). -/
theorem modTools_chatLog_fallback (env : ExecEnv) (input : String)
    (r : Option String)
    (h : resolveModerationTarget env.messages (some input) = none) :
    timeoutUserTool env input r = (⟨chatLogFallbackText env.messages⟩, []) ∧
    banUserTool env input r = (⟨chatLogFallbackText env.messages⟩, []) := by
  constructor
  · unfold timeoutUserTool
    rw [h]
  · unfold banUserTool
    rw [h]

/-- C4 witness: a descriptor-style input that resolves to nobody. -/
theorem modTools_chatLog_fallback_witness :
    timeoutUserTool envEmpty "the toxic one" none =
      (⟨chatLogFallbackText []⟩, []) ∧
    banUserTool envEmpty "the toxic one" none =
      (⟨chatLogFallbackText []⟩, []) :=
  modTools_chatLog_fallback envEmpty "the toxic one" none (by decide)

/-! ## C5: unknown tools and the no-throw discipline of the executor -/

theorem noThrow_execSend (env : ExecEnv) (p : ToolParams) :
    (execSend env p).1.success = false →
    ((execSend env p).1.error).isSome = true := by
  unfold execSend
  split
  · split <;> intro h <;> simp_all
  · intro h
    simp

theorem noThrow_execTimeout (env : ExecEnv) (p : ToolParams) :
    (execTimeout env p).1.success = false →
    ((execTimeout env p).1.error).isSome = true := by
  unfold execTimeout
  split
  · intro h; simp
  · split
    · intro h; simp
    · split <;> intro h <;> simp_all

theorem noThrow_execBan (env : ExecEnv) (p : ToolParams) :
    (execBan env p).1.success = false →
    ((execBan env p).1.error).isSome = true := by
  unfold execBan
  split
  · intro h; simp
  · split
    · intro h; simp
    · split <;> intro h <;> simp_all

theorem noThrow_execPoll (env : ExecEnv) (p : ToolParams) :
    (execPoll env p).1.success = false →
    ((execPoll env p).1.error).isSome = true := by
  unfold execPoll
  split
  · intro h; simp
  · split <;> intro h <;> simp_all

theorem noThrow_execPrediction (env : ExecEnv) (p : ToolParams) :
    (execPrediction env p).1.success = false →
    ((execPrediction env p).1.error).isSome = true := by
  unfold execPrediction
  split
  · intro h; simp
  · split <;> intro h <;> simp_all

theorem noThrow_execClip (env : ExecEnv) :
    (execClip env).1.success = false →
    ((execClip env).1.error).isSome = true := by
  unfold execClip
  split <;> intro h <;> simp_all

theorem noThrow_execTitle (env : ExecEnv) (p : ToolParams) :
    (execTitle env p).1.success = false →
    ((execTitle env p).1.error).isSome = true := by
  unfold execTitle
  split <;> intro h <;> simp_all

theorem noThrow_execCategory (env : ExecEnv) (p : ToolParams) :
    (execCategory env p).1.success = false →
    ((execCategory env p).1.error).isSome = true := by
  unfold execCategory
  rcases hg : env.api ("/search/categories?query=" ++ jsDisplay p.category) "GET" with e | r
  · simp [hg]
  · rcases hd : r.dataIds with _ | ⟨cid, rest⟩
    · simp [hg, hd]
    · rcases hp2 : env.api "/channels" "PATCH" with e2 | r2
      · simp [hg, hd, hp2]
      · simp [hg, hd, hp2]

theorem mcpExecutor_eq_send (env : ExecEnv) (p : ToolParams) :
    mcpExecutor env "sendMessageToChat" p = execSend env p := rfl

theorem mcpExecutor_eq_timeout (env : ExecEnv) (p : ToolParams) :
    mcpExecutor env "timeoutUser" p = execTimeout env p := rfl

theorem mcpExecutor_eq_ban (env : ExecEnv) (p : ToolParams) :
    mcpExecutor env "banUser" p = execBan env p := rfl

theorem mcpExecutor_eq_poll (env : ExecEnv) (p : ToolParams) :
    mcpExecutor env "createTwitchPoll" p = execPoll env p := rfl

theorem mcpExecutor_eq_prediction (env : ExecEnv) (p : ToolParams) :
    mcpExecutor env "createTwitchPrediction" p = execPrediction env p := rfl

theorem mcpExecutor_eq_clip (env : ExecEnv) (p : ToolParams) :
    mcpExecutor env "createTwitchClip" p = execClip env := rfl

theorem mcpExecutor_eq_title (env : ExecEnv) (p : ToolParams) :
    mcpExecutor env "updateStreamTitle" p = execTitle env p := rfl

theorem mcpExecutor_eq_category (env : ExecEnv) (p : ToolParams) :
    mcpExecutor env "updateStreamCategory" p = execCategory env p := rfl

theorem mcpExecutor_default (env : ExecEnv) (toolName : String)
    (p : ToolParams) (h : toolName ∉ recognizedToolNames) :
    mcpExecutor env toolName p = (unknownToolFailure toolName, []) := by
  have h' : ¬(toolName = "sendMessageToChat" ∨ toolName = "timeoutUser" ∨
      toolName = "banUser" ∨ toolName = "createTwitchPoll" ∨
      toolName = "createTwitchPrediction" ∨ toolName = "createTwitchClip" ∨
      toolName = "updateStreamTitle" ∨ toolName = "updateStreamCategory") := by
    intro hc
    apply h
    simp only [recognizedToolNames, List.mem_cons, List.not_mem_nil, or_false]
    exact hc
  push_neg at h'
  obtain ⟨h1, h2, h3, h4, h5, h6, h7, h8⟩ := h'
  unfold mcpExecutor
  rw [if_neg h1, if_neg h2, if_neg h3, if_neg h4, if_neg h5, if_neg h6,
    if_neg h7, if_neg h8]

/-- C5: an unrecognized tool name yields the structured unknown-tool failure
(no collaborator touched), and — the executor being a total function whose
catch clause reifies every thrown collaborator error — every failing result
carries an error message. -/
theorem mcpExecutor_unknown_structured (env : ExecEnv) (toolName : String)
    (p : ToolParams) :
    (toolName ∉ recognizedToolNames →
      mcpExecutor env toolName p = (unknownToolFailure toolName, [])) ∧
    ((mcpExecutor env toolName p).1.success = false →
      ((mcpExecutor env toolName p).1.error).isSome = true) := by
  constructor
  · exact mcpExecutor_default env toolName p
  · by_cases h1 : toolName = "sendMessageToChat"
    · subst h1; rw [mcpExecutor_eq_send]; exact noThrow_execSend env p
    · by_cases h2 : toolName = "timeoutUser"
      · subst h2; rw [mcpExecutor_eq_timeout]; exact noThrow_execTimeout env p
      · by_cases h3 : toolName = "banUser"
        · subst h3; rw [mcpExecutor_eq_ban]; exact noThrow_execBan env p
        · by_cases h4 : toolName = "createTwitchPoll"
          · subst h4; rw [mcpExecutor_eq_poll]; exact noThrow_execPoll env p
          · by_cases h5 : toolName = "createTwitchPrediction"
            · subst h5; rw [mcpExecutor_eq_prediction]
              exact noThrow_execPrediction env p
            · by_cases h6 : toolName = "createTwitchClip"
              · subst h6; rw [mcpExecutor_eq_clip]; exact noThrow_execClip env
              · by_cases h7 : toolName = "updateStreamTitle"
                · subst h7; rw [mcpExecutor_eq_title]
                  exact noThrow_execTitle env p
                · by_cases h8 : toolName = "updateStreamCategory"
                  · subst h8; rw [mcpExecutor_eq_category]
                    exact noThrow_execCategory env p
                  · have hmem : toolName ∉ recognizedToolNames := by
                      simp only [recognizedToolNames, List.mem_cons,
                        List.not_mem_nil, or_false]
                      push_neg
                      exact ⟨h1, h2, h3, h4, h5, h6, h7, h8⟩
                    rw [mcpExecutor_default env toolName p hmem]
                    intro h
                    simp [unknownToolFailure]

/-- C5 witness at a concrete unknown tool name. -/
theorem mcpExecutor_unknown_structured_witness :
    mcpExecutor envEmpty "frobnicate" paramsEmpty =
      (unknownToolFailure "frobnicate", []) :=
  (mcpExecutor_unknown_structured envEmpty "frobnicate" paramsEmpty).1 (by decide)

/-! ## C6: the recognized action names -/

/-- C6 counterexample: the kebab-case action names listed by the
specification all hit the executor's default branch and come back as
structured unknown-tool failures. -/
theorem kebabNames_unknown_counterexample :
    mcpExecutor envEmpty "send-chat-message" paramsEmpty =
      (unknownToolFailure "send-chat-message", []) ∧
    mcpExecutor envEmpty "timeout-user" paramsEmpty =
      (unknownToolFailure "timeout-user", []) ∧
    mcpExecutor envEmpty "ban-user" paramsEmpty =
      (unknownToolFailure "ban-user", []) ∧
    mcpExecutor envEmpty "create-poll" paramsEmpty =
      (unknownToolFailure "create-poll", []) ∧
    mcpExecutor envEmpty "create-prediction" paramsEmpty =
      (unknownToolFailure "create-prediction", []) ∧
    mcpExecutor envEmpty "create-clip" paramsEmpty =
      (unknownToolFailure "create-clip", []) ∧
    mcpExecutor envEmpty "update-title" paramsEmpty =
      (unknownToolFailure "update-title", []) ∧
    mcpExecutor envEmpty "update-category" paramsEmpty =
      (unknownToolFailure "update-category", []) :=
  ⟨rfl, rfl, rfl, rfl, rfl, rfl, rfl, rfl⟩

theorem execSend_ne_unknown (env : ExecEnv) (p : ToolParams) :
    execSend env p ≠ (unknownToolFailure "sendMessageToChat", []) := by
  unfold execSend unknownToolFailure
  split
  · split <;> simp
  · simp

theorem execTimeout_ne_unknown (env : ExecEnv) (p : ToolParams) :
    execTimeout env p ≠ (unknownToolFailure "timeoutUser", []) := by
  unfold execTimeout unknownToolFailure
  split
  · simp
  · split
    · simp
    · split <;> simp

theorem execBan_ne_unknown (env : ExecEnv) (p : ToolParams) :
    execBan env p ≠ (unknownToolFailure "banUser", []) := by
  unfold execBan unknownToolFailure
  split
  · simp
  · split
    · simp
    · split <;> simp

theorem execPoll_ne_unknown (env : ExecEnv) (p : ToolParams) :
    execPoll env p ≠ (unknownToolFailure "createTwitchPoll", []) := by
  unfold execPoll unknownToolFailure
  split
  · simp
  · split <;> simp

theorem execPrediction_ne_unknown (env : ExecEnv) (p : ToolParams) :
    execPrediction env p ≠ (unknownToolFailure "createTwitchPrediction", []) := by
  unfold execPrediction unknownToolFailure
  split
  · simp
  · split <;> simp

theorem execClip_ne_unknown (env : ExecEnv) :
    execClip env ≠ (unknownToolFailure "createTwitchClip", []) := by
  unfold execClip unknownToolFailure
  split <;> simp

theorem execTitle_ne_unknown (env : ExecEnv) (p : ToolParams) :
    execTitle env p ≠ (unknownToolFailure "updateStreamTitle", []) := by
  unfold execTitle unknownToolFailure
  split <;> simp

theorem execCategory_ne_unknown (env : ExecEnv) (p : ToolParams) :
    execCategory env p ≠ (unknownToolFailure "updateStreamCategory", []) := by
  unfold execCategory unknownToolFailure
  rcases hg : env.api ("/search/categories?query=" ++ jsDisplay p.category) "GET" with e | r
  · simp [hg]
  · rcases hd : r.dataIds with _ | ⟨cid, rest⟩
    · simp [hg, hd]
    · rcases hp2 : env.api "/channels" "PATCH" with e2 | r2
      · simp [hg, hd, hp2]
      · simp [hg, hd, hp2]

/-- C6 amended: the executor's recognized action names are the camelCase
tool names `sendMessageToChat`, `timeoutUser`, `banUser`,
`createTwitchPoll`, `createTwitchPrediction`, `createTwitchClip`,
`updateStreamTitle`, `updateStreamCategory`; each of them dispatches to its
real action case and never produces the unknown-tool failure. -/
theorem recognized_dispatch (env : ExecEnv) (p : ToolParams) :
    (mcpExecutor env "sendMessageToChat" p = execSend env p ∧
     mcpExecutor env "timeoutUser" p = execTimeout env p ∧
     mcpExecutor env "banUser" p = execBan env p ∧
     mcpExecutor env "createTwitchPoll" p = execPoll env p ∧
     mcpExecutor env "createTwitchPrediction" p = execPrediction env p ∧
     mcpExecutor env "createTwitchClip" p = execClip env ∧
     mcpExecutor env "updateStreamTitle" p = execTitle env p ∧
     mcpExecutor env "updateStreamCategory" p = execCategory env p) ∧
    (∀ n ∈ recognizedToolNames,
      mcpExecutor env n p ≠ (unknownToolFailure n, [])) := by
  refine ⟨⟨rfl, rfl, rfl, rfl, rfl, rfl, rfl, rfl⟩, ?_⟩
  intro n hn
  simp only [recognizedToolNames, List.mem_cons, List.not_mem_nil, or_false] at hn
  rcases hn with rfl | rfl | rfl | rfl | rfl | rfl | rfl | rfl
  · rw [mcpExecutor_eq_send]; exact execSend_ne_unknown env p
  · rw [mcpExecutor_eq_timeout]; exact execTimeout_ne_unknown env p
  · rw [mcpExecutor_eq_ban]; exact execBan_ne_unknown env p
  · rw [mcpExecutor_eq_poll]; exact execPoll_ne_unknown env p
  · rw [mcpExecutor_eq_prediction]; exact execPrediction_ne_unknown env p
  · rw [mcpExecutor_eq_clip]; exact execClip_ne_unknown env
  · rw [mcpExecutor_eq_title]; exact execTitle_ne_unknown env p
  · rw [mcpExecutor_eq_category]; exact execCategory_ne_unknown env p

/-- C6 amended witness at a concrete recognized name. -/
theorem recognized_dispatch_witness :
    mcpExecutor envEmpty "timeoutUser" paramsEmpty ≠
      (unknownToolFailure "timeoutUser", []) :=
  (recognized_dispatch envEmpty paramsEmpty).2 "timeoutUser" (by decide)

/-! ## C7: the timeout-duration fallback -/

/-- C7: `guessTimeoutDuration` classifies the lowercased reason by keyword
family, in source order — spam/caps/emote 300 s, then toxic/rude/mean
1800 s, then severe/serious 3600 s, else 600 s — and the executor's timeout
case applies it exactly when the decision carries no explicit duration. -/
theorem guessTimeoutDuration_families (reason : String) :
    ((strContains (lowerS reason) "spam" || strContains (lowerS reason) "caps" ||
        strContains (lowerS reason) "emote") = true →
      guessTimeoutDuration reason = 300) ∧
    ((strContains (lowerS reason) "spam" || strContains (lowerS reason) "caps" ||
        strContains (lowerS reason) "emote") = false →
      (strContains (lowerS reason) "toxic" || strContains (lowerS reason) "rude" ||
        strContains (lowerS reason) "mean") = true →
      guessTimeoutDuration reason = 1800) ∧
    ((strContains (lowerS reason) "spam" || strContains (lowerS reason) "caps" ||
        strContains (lowerS reason) "emote") = false →
      (strContains (lowerS reason) "toxic" || strContains (lowerS reason) "rude" ||
        strContains (lowerS reason) "mean") = false →
      (strContains (lowerS reason) "severe" ||
        strContains (lowerS reason) "serious") = true →
      guessTimeoutDuration reason = 3600) ∧
    ((strContains (lowerS reason) "spam" || strContains (lowerS reason) "caps" ||
        strContains (lowerS reason) "emote") = false →
      (strContains (lowerS reason) "toxic" || strContains (lowerS reason) "rude" ||
        strContains (lowerS reason) "mean") = false →
      (strContains (lowerS reason) "severe" ||
        strContains (lowerS reason) "serious") = false →
      guessTimeoutDuration reason = 600) ∧
    (∀ p : ToolParams, p.duration = none →
      timeoutDurationOf p = guessTimeoutDuration (jsOrStr p.reason "")) := by
  refine ⟨?_, ?_, ?_, ?_, ?_⟩
  · intro h1
    unfold guessTimeoutDuration
    simp [h1]
  · intro h1 h2
    unfold guessTimeoutDuration
    simp [h1, h2]
  · intro h1 h2 h3
    unfold guessTimeoutDuration
    simp [h1, h2, h3]
  · intro h1 h2 h3
    unfold guessTimeoutDuration
    simp [h1, h2, h3]
  · intro p hp
    unfold timeoutDurationOf jsOrNat
    rw [hp]

/-- C7 witness: one concrete reason per family, plus the no-duration case. -/
theorem guessTimeoutDuration_families_witness :
    guessTimeoutDuration "excessive spam" = 300 ∧
    guessTimeoutDuration "very toxic behavior" = 1800 ∧
    guessTimeoutDuration "severe violation" = 3600 ∧
    guessTimeoutDuration "other" = 600 ∧
    timeoutDurationOf paramsEmpty = guessTimeoutDuration (jsOrStr none "") :=
  ⟨(guessTimeoutDuration_families "excessive spam").1 (by decide),
   (guessTimeoutDuration_families "very toxic behavior").2.1 (by decide) (by decide),
   (guessTimeoutDuration_families "severe violation").2.2.1 (by decide) (by decide)
     (by decide),
   (guessTimeoutDuration_families "other").2.2.2.1 (by decide) (by decide) (by decide),
   (guessTimeoutDuration_families "other").2.2.2.2 paramsEmpty rfl⟩

/-! ## C9: soft failure of unresolvable moderation targets in the executor -/

/-- C9: in the executor's timeout and ban cases an unresolvable target —
either `resolveModerationTarget` or the user-id lookup returning nothing —
produces a `success: false` result with the error detail set, as a value
(the executor never throws), and no moderation API call is made. -/
theorem mcpExecutor_target_failure_soft (env : ExecEnv) (p : ToolParams) :
    (resolveModerationTarget env.messages p.usernameOrDescriptor = none →
      mcpExecutor env "timeoutUser" p =
        (⟨false, none, some "Could not resolve target user"⟩, []) ∧
      mcpExecutor env "banUser" p =
        (⟨false, none, some "Could not resolve target user"⟩, [])) ∧
    (∀ t, resolveModerationTarget env.messages p.usernameOrDescriptor = some t →
      env.userId t = none →
      mcpExecutor env "timeoutUser" p =
        (⟨false, none, some ("Could not resolve user ID for " ++ t)⟩,
         [.userIdLookup t]) ∧
      mcpExecutor env "banUser" p =
        (⟨false, none, some ("Could not resolve user ID for " ++ t)⟩,
         [.userIdLookup t])) := by
  constructor
  · intro h
    constructor
    · rw [mcpExecutor_eq_timeout]
      unfold execTimeout
      rw [h]
    · rw [mcpExecutor_eq_ban]
      unfold execBan
      rw [h]
  · intro t ht hid
    constructor
    · rw [mcpExecutor_eq_timeout]
      unfold execTimeout
      rw [ht]
      simp [hid]
    · rw [mcpExecutor_eq_ban]
      unfold execBan
      rw [ht]
      simp [hid]

/-- C9 witness: an absent target parameter, and a literal username unknown
to the platform lookup. -/
theorem mcpExecutor_target_failure_soft_witness :
    mcpExecutor envNoUsers "timeoutUser" paramsEmpty =
      (⟨false, none, some "Could not resolve target user"⟩, []) ∧
    mcpExecutor envNoUsers "banUser"
        ⟨none, some "ghost_user", none, none, none, none, none, none⟩ =
      (⟨false, none, some ("Could not resolve user ID for " ++ "ghost_user")⟩,
       [.userIdLookup "ghost_user"]) :=
  ⟨((mcpExecutor_target_failure_soft envNoUsers paramsEmpty).1 (by decide)).1,
   ((mcpExecutor_target_failure_soft envNoUsers
        ⟨none, some "ghost_user", none, none, none, none, none, none⟩).2
      "ghost_user" (by decide) rfl).2⟩

/-! ## C10: `safeJsonStringify` -/

/-- C10: `safeJsonStringify` is a total function of the serialization
outcome — when serialization succeeds and overruns `maxLength` the result
is the first `maxLength` characters plus the fixed truncation notice, when
it fits the result is the serialized text itself, and a serialization error
is rendered as an error-describing string instead of propagating. -/
theorem safeJsonStringify_spec (ser : Except String String) (maxLength : Nat) :
    (∀ j, ser = .ok j → maxLength < j.length →
      safeJsonStringify ser maxLength =
        substring0 j maxLength ++ "\n\n[Output truncated due to length]") ∧
    (∀ j, ser = .ok j → ¬ maxLength < j.length →
      safeJsonStringify ser maxLength = j) ∧
    (∀ e, ser = .error e →
      safeJsonStringify ser maxLength = "[JSON stringify error: " ++ e ++ "]") := by
  refine ⟨?_, ?_, ?_⟩
  · intro j hj hlen
    subst hj
    simp [safeJsonStringify, hlen]
  · intro j hj hlen
    subst hj
    simp [safeJsonStringify, hlen]
  · intro e he
    subst he
    rfl

/-! ## C3: the tie-break of the descriptor scan

The score map is an insertion-ordered association list; the lemmas below
track, across the scan, that its keys appear in order of each user's first
qualifying message, so that the head of the stable descending sort is the
earliest top scorer. -/

theorem keysOf_bump (sc : List (String × Nat)) (u : String) :
    keysOf (bump sc u) =
      if u ∈ keysOf sc then keysOf sc else keysOf sc ++ [u] := by
  induction sc with
  | nil => simp [bump, keysOf]
  | cons e sc ih =>
    obtain ⟨v, n⟩ := e
    by_cases hv : v = u
    · subst hv
      simp [bump, keysOf]
    · have h1 : bump ((v, n) :: sc) u = (v, n) :: bump sc u := by
        simp [bump, if_neg hv]
      rw [h1]
      rw [show keysOf ((v, n) :: bump sc u) = v :: keysOf (bump sc u) from rfl, ih]
      rw [show keysOf ((v, n) :: sc) = v :: keysOf sc from rfl]
      by_cases hm : u ∈ keysOf sc
      · rw [if_pos hm, if_pos (List.mem_cons_of_mem v hm)]
      · rw [if_neg hm, if_neg (by
          simp only [List.mem_cons]
          push_neg
          exact ⟨fun h => hv h.symm, hm⟩)]
        simp

theorem mem_keys_bump (sc : List (String × Nat)) (u : String) :
    u ∈ keysOf (bump sc u) := by
  rw [keysOf_bump]
  by_cases hm : u ∈ keysOf sc
  · rw [if_pos hm]; exact hm
  · rw [if_neg hm]; simp

theorem cnt_bump (sc : List (String × Nat)) (u w : String) :
    cnt (bump sc u) w = cnt sc w + (if u = w then 1 else 0) := by
  induction sc with
  | nil => simp [bump, cnt]
  | cons e sc ih =>
    obtain ⟨v, n⟩ := e
    by_cases hv : v = u
    · simp only [bump, if_pos hv, cnt]
      by_cases hw : v = w
      · have huw : u = w := by rw [← hv]; exact hw
        rw [if_pos hw, if_pos hw, if_pos huw]
      · have huw : ¬ u = w := by rw [← hv]; exact hw
        rw [if_neg hw, if_neg hw, if_neg huw]
        simp
    · simp only [bump, if_neg hv, cnt]
      by_cases hw : v = w
      · have huw : ¬ u = w := by
          intro hc
          exact hv (by rw [hw, hc])
        rw [if_pos hw, if_pos hw, if_neg huw]
        simp
      · rw [if_neg hw, if_neg hw]
        exact ih

theorem entries_pos_bump (sc : List (String × Nat)) (u : String)
    (h : ∀ e ∈ sc, 1 ≤ e.2) : ∀ e ∈ bump sc u, 1 ≤ e.2 := by
  induction sc with
  | nil =>
    intro e he
    simp only [bump, List.mem_singleton] at he
    rw [he]
  | cons f sc ih =>
    obtain ⟨v, n⟩ := f
    by_cases hv : v = u
    · simp only [bump, if_pos hv]
      intro e he
      rcases List.mem_cons.mp he with he | he
      · rw [he]
        show 1 ≤ n + 1
        omega
      · exact h e (List.mem_cons_of_mem _ he)
    · simp only [bump, if_neg hv]
      intro e he
      rcases List.mem_cons.mp he with he | he
      · rw [he]
        exact h (v, n) (List.mem_cons_self _ _)
      · exact ih (fun e he => h e (List.mem_cons_of_mem _ he)) e he

theorem scoreStep_cons (k : String) (kws : List String)
    (sc : List (String × Nat)) (m : ChatMessage) :
    scoreStep (k :: kws) sc m =
      scoreStep kws
        (if strContains (lowerS m.content) k then bump sc m.username else sc) m := rfl

theorem qual_cons (k : String) (kws : List String) (m : ChatMessage) :
    qual (k :: kws) m =
      (strContains (lowerS m.content) k || qual kws m) := by
  simp [qual]

theorem hitCount_cons (k : String) (kws : List String) (m : ChatMessage) :
    hitCount (k :: kws) m =
      (if strContains (lowerS m.content) k then 1 else 0) + hitCount kws m := by
  by_cases h : strContains (lowerS m.content) k
  · simp [hitCount, List.filter_cons, h]
    omega
  · simp [hitCount, List.filter_cons, h]

theorem keysOf_scoreStep (kws : List String) (sc : List (String × Nat))
    (m : ChatMessage) :
    keysOf (scoreStep kws sc m) =
      if qual kws m = true ∧ m.username ∉ keysOf sc then
        keysOf sc ++ [m.username]
      else keysOf sc := by
  induction kws generalizing sc with
  | nil =>
    have hq : qual ([] : List String) m = false := by simp [qual]
    rw [hq]
    simp [scoreStep]
  | cons k kws ih =>
    rw [scoreStep_cons, qual_cons]
    by_cases hk : strContains (lowerS m.content) k
    · rw [if_pos hk, ih]
      have hmem := mem_keys_bump sc m.username
      rw [if_neg (by intro hc; exact hc.2 hmem)]
      rw [keysOf_bump]
      by_cases hm : m.username ∈ keysOf sc
      · rw [if_pos hm, if_neg]
        intro hc
        exact hc.2 hm
      · rw [if_neg hm, if_pos]
        constructor
        · simp [hk]
        · exact hm
    · rw [if_neg hk, ih]
      have : (strContains (lowerS m.content) k || qual kws m) = qual kws m := by
        simp [hk]
      rw [this]

theorem cnt_scoreStep (kws : List String) (sc : List (String × Nat))
    (m : ChatMessage) (w : String) :
    cnt (scoreStep kws sc m) w =
      cnt sc w + (if m.username = w then hitCount kws m else 0) := by
  induction kws generalizing sc with
  | nil =>
    have : hitCount ([] : List String) m = 0 := by simp [hitCount]
    rw [this]
    simp [scoreStep]
  | cons k kws ih =>
    rw [scoreStep_cons, hitCount_cons]
    by_cases hk : strContains (lowerS m.content) k
    · rw [if_pos hk, if_pos hk, ih, cnt_bump]
      by_cases hw : m.username = w
      · rw [if_pos hw, if_pos hw, if_pos hw]
        omega
      · rw [if_neg hw, if_neg hw, if_neg hw]
    · rw [if_neg hk, if_neg hk, ih]
      simp

theorem entries_pos_scoreStep (kws : List String) (sc : List (String × Nat))
    (m : ChatMessage) (h : ∀ e ∈ sc, 1 ≤ e.2) :
    ∀ e ∈ scoreStep kws sc m, 1 ≤ e.2 := by
  induction kws generalizing sc with
  | nil => exact h
  | cons k kws ih =>
    rw [scoreStep_cons]
    by_cases hk : strContains (lowerS m.content) k
    · rw [if_pos hk]
      exact ih _ (entries_pos_bump sc m.username h)
    · rw [if_neg hk]
      exact ih _ h

theorem descScore_append (kws : List String) (l1 l2 : List ChatMessage)
    (w : String) :
    descScore kws (l1 ++ l2) w = descScore kws l1 w + descScore kws l2 w := by
  induction l1 with
  | nil => simp [descScore]
  | cons m l1 ih =>
    simp only [List.cons_append, descScore, List.append_eq]
    rw [ih]
    omega

theorem fqi_append_one (kws : List String) (a : String)
    (pre : List ChatMessage) (m : ChatMessage) :
    fqi kws a (pre ++ [m]) =
      match fqi kws a pre with
      | some i => some i
      | none =>
        if m.username = a ∧ qual kws m = true then some pre.length else none := by
  induction pre with
  | nil =>
    simp only [List.nil_append, fqi, List.length_nil]
    split <;> rfl
  | cons p pre ih =>
    simp only [List.cons_append, fqi, List.append_eq]
    by_cases hp : p.username = a ∧ qual kws p = true
    · rw [if_pos hp, if_pos hp]
    · rw [if_neg hp, if_neg hp, ih]
      cases hpre : fqi kws a pre with
      | some i => rfl
      | none =>
        by_cases hm : m.username = a ∧ qual kws m = true
        · rw [if_pos hm, if_pos hm]
          simp [List.length_cons]
        · rw [if_neg hm, if_neg hm]
          rfl

theorem fqi_lt_length (kws : List String) (a : String)
    (l : List ChatMessage) (i : Nat) (h : fqi kws a l = some i) : i < l.length := by
  induction l generalizing i with
  | nil => simp [fqi] at h
  | cons m l ih =>
    simp only [fqi] at h
    by_cases hm : m.username = a ∧ qual kws m = true
    · rw [if_pos hm] at h
      injection h with h
      subst h
      simp
    · rw [if_neg hm] at h
      cases hl : fqi kws a l with
      | none => rw [hl] at h; simp at h
      | some j =>
        rw [hl] at h
        simp at h
        have := ih j hl
        simp
        omega

theorem idxOfA_lt_length (l : List String) (a : String) (i : Nat)
    (h : idxOfA l a = some i) : i < l.length := by
  induction l generalizing i with
  | nil => simp [idxOfA] at h
  | cons x l ih =>
    simp only [idxOfA] at h
    by_cases hx : x = a
    · rw [if_pos hx] at h
      injection h with h
      subst h
      simp
    · rw [if_neg hx] at h
      cases hl : idxOfA l a with
      | none => rw [hl] at h; simp at h
      | some j =>
        rw [hl] at h
        simp at h
        have := ih j hl
        simp
        omega

theorem idxOfA_append (xs ys : List String) (a : String) :
    idxOfA (xs ++ ys) a =
      match idxOfA xs a with
      | some i => some i
      | none => (idxOfA ys a).map (· + xs.length) := by
  induction xs with
  | nil =>
    simp only [List.nil_append, idxOfA, List.length_nil]
    cases idxOfA ys a <;> simp
  | cons x xs ih =>
    simp only [List.cons_append, idxOfA, List.append_eq]
    by_cases hx : x = a
    · rw [if_pos hx, if_pos hx]
    · rw [if_neg hx, if_neg hx, ih]
      cases hxs : idxOfA xs a with
      | some i => rfl
      | none =>
        cases hys : idxOfA ys a with
        | none => rfl
        | some j =>
          simp [List.length_cons]
          omega

theorem idxOfA_eq_none (l : List String) (a : String) :
    idxOfA l a = none ↔ a ∉ l := by
  induction l with
  | nil => simp [idxOfA]
  | cons x l ih =>
    by_cases hx : x = a
    · simp [idxOfA, hx]
    · simp only [idxOfA, if_neg hx, List.mem_cons]
      constructor
      · intro h
        push_neg
        refine ⟨fun hh => hx hh.symm, ?_⟩
        apply ih.mp
        cases hidx : idxOfA l a with
        | none => rfl
        | some j =>
          rw [hidx] at h
          simp at h
      · intro h
        push_neg at h
        rw [ih.mpr h.2]
        rfl

theorem idxOfA_some_of_mem (l : List String) (a : String) (h : a ∈ l) :
    ∃ i, idxOfA l a = some i := by
  cases hl : idxOfA l a with
  | none => exact absurd h ((idxOfA_eq_none l a).mp hl)
  | some i => exact ⟨i, rfl⟩

theorem firstMax_isSome (x : String × Nat) (xs : List (String × Nat)) :
    ∃ e, firstMax (x :: xs) = some e := by
  cases hxs : firstMax xs with
  | none => exact ⟨x, by simp [firstMax, hxs]⟩
  | some y =>
    by_cases h : x.2 < y.2
    · exact ⟨y, by simp [firstMax, hxs, h]⟩
    · exact ⟨x, by simp [firstMax, hxs, h]⟩

theorem firstMax_split (sc : List (String × Nat)) (e : String × Nat)
    (h : firstMax sc = some e) :
    ∃ p q, sc = p ++ e :: q ∧ (∀ x ∈ p, x.2 < e.2) ∧ (∀ x ∈ sc, x.2 ≤ e.2) := by
  induction sc generalizing e with
  | nil => simp [firstMax] at h
  | cons x xs ih =>
    cases hxs : firstMax xs with
    | none =>
      simp only [firstMax, hxs] at h
      injection h with h
      have hnil : xs = [] := by
        cases xs with
        | nil => rfl
        | cons y ys =>
          exfalso
          obtain ⟨f, hf⟩ := firstMax_isSome y ys
          rw [hf] at hxs
          exact Option.noConfusion hxs
      rw [hnil, ← h]
      exact ⟨[], [], rfl, by simp, by simp⟩
    | some y =>
      simp only [firstMax, hxs] at h
      by_cases hlt : x.2 < y.2
      · rw [if_pos hlt] at h
        injection h with h
        subst h
        obtain ⟨p, q, hsplit, hp, hmax⟩ := ih y hxs
        refine ⟨x :: p, q, by rw [hsplit, List.cons_append], ?_, ?_⟩
        · intro z hz
          rcases List.mem_cons.mp hz with hz | hz
          · rw [hz]; exact hlt
          · exact hp z hz
        · intro z hz
          rcases List.mem_cons.mp hz with hz | hz
          · rw [hz]; exact Nat.le_of_lt hlt
          · exact hmax z hz
      · rw [if_neg hlt] at h
        injection h with h
        obtain ⟨p, q, hsplit, hp, hmax⟩ := ih y hxs
        refine ⟨[], xs, ?_, by simp, ?_⟩
        · rw [← h]
          exact (List.nil_append _).symm
        · intro z hz
          rw [← h]
          rcases List.mem_cons.mp hz with hz | hz
          · rw [hz]
          · exact Nat.le_trans (hmax z hz) (Nat.le_of_not_lt hlt)

theorem head?_sortByScoreDesc (l : List (String × Nat)) :
    (sortByScoreDesc l).head? = firstMax l := by
  induction l with
  | nil => rfl
  | cons x xs ih =>
    cases hxs : sortByScoreDesc xs with
    | nil =>
      have hfm : firstMax xs = none := by rw [← ih, hxs]; rfl
      simp only [sortByScoreDesc, hxs, firstMax, hfm, insertDesc]
      rfl
    | cons y ys =>
      have hfm : firstMax xs = some y := by rw [← ih, hxs]; rfl
      simp only [sortByScoreDesc, hxs, firstMax, hfm, insertDesc]
      by_cases hlt : x.2 < y.2
      · rw [if_pos hlt, if_pos hlt]
        rfl
      · rw [if_neg hlt, if_neg hlt]
        rfl

theorem cnt_of_mem_nodup (sc : List (String × Nat)) (a : String) (n : Nat)
    (hnd : (keysOf sc).Nodup) (h : (a, n) ∈ sc) : cnt sc a = n := by
  induction sc with
  | nil => simp at h
  | cons e sc ih =>
    simp only [keysOf, List.map_cons, List.nodup_cons] at hnd
    rcases List.mem_cons.mp h with rfl | h
    · simp [cnt]
    · have ha : a ∈ keysOf sc := by
        simp only [keysOf, List.mem_map]
        exact ⟨(a, n), h, rfl⟩
      have hne : e.1 ≠ a := by
        intro hc
        rw [keysOf] at ha
        exact hnd.1 (hc ▸ ha)
      simp only [cnt, if_neg hne]
      exact ih hnd.2 h

theorem entry_mem_of_mem_keys (sc : List (String × Nat)) (a : String)
    (h : a ∈ keysOf sc) : (a, cnt sc a) ∈ sc := by
  induction sc with
  | nil => simp [keysOf] at h
  | cons e sc ih =>
    simp only [keysOf, List.map_cons, List.mem_cons] at h
    by_cases he : e.1 = a
    · simp only [cnt, if_pos he]
      have heq : (a, e.2) = e := by rw [← he]
      rw [heq]
      exact List.mem_cons_self e sc
    · simp only [cnt, if_neg he]
      rcases h with h | h
      · exact absurd h.symm he
      · exact List.mem_cons_of_mem e (ih h)

theorem cnt_eq_zero_of_not_mem (sc : List (String × Nat)) (a : String)
    (h : a ∉ keysOf sc) : cnt sc a = 0 := by
  induction sc with
  | nil => rfl
  | cons e sc ih =>
    simp only [keysOf, List.map_cons, List.mem_cons] at h
    push_neg at h
    have hne : ¬ e.1 = a := fun hc => h.1 hc.symm
    simp only [cnt, if_neg hne]
    exact ih h.2

theorem idxOfA_singleton_some (x a : String) (k : Nat)
    (h : idxOfA [x] a = some k) : x = a ∧ k = 0 := by
  simp only [idxOfA] at h
  by_cases hx : x = a
  · rw [if_pos hx] at h
    injection h with h
    exact ⟨hx, h.symm⟩
  · rw [if_neg hx] at h
    simp at h

theorem fqi_lift (kws : List String) (a : String) (pre : List ChatMessage)
    (m : ChatMessage) (i : Nat) (h : fqi kws a pre = some i) :
    fqi kws a (pre ++ [m]) = some i := by
  rw [fqi_append_one, h]

theorem scanInv_fqi_some (kws : List String) (pre : List ChatMessage)
    (sc : List (String × Nat)) (hInv : ScanInv kws pre sc) (a : String)
    (ha : a ∈ keysOf sc) : ∃ i, fqi kws a pre = some i := by
  have := (hInv.mem_iff a).mp ha
  cases hfa : fqi kws a pre with
  | none => rw [hfa] at this; simp at this
  | some i => exact ⟨i, rfl⟩

theorem scanInv_fqi_none (kws : List String) (pre : List ChatMessage)
    (sc : List (String × Nat)) (hInv : ScanInv kws pre sc) (a : String)
    (ha : a ∉ keysOf sc) : fqi kws a pre = none := by
  cases hfa : fqi kws a pre with
  | none => rfl
  | some i =>
    exact absurd ((hInv.mem_iff a).mpr (by rw [hfa]; rfl)) ha

theorem inv_nil (kws : List String) : ScanInv kws [] [] := by
  refine ⟨?_, ?_, ?_, ?_, ?_⟩
  · intro w; rfl
  · intro a; simp [keysOf, fqi]
  · intro a b i j hi hj hij
    simp [keysOf, idxOfA] at hi
  · simp [keysOf]
  · intro e he; simp at he

theorem inv_step (kws : List String) (pre : List ChatMessage)
    (sc : List (String × Nat)) (m : ChatMessage) (hInv : ScanInv kws pre sc) :
    ScanInv kws (pre ++ [m]) (scoreStep kws sc m) := by
  have hkeys := keysOf_scoreStep kws sc m
  have hscore : ∀ w, cnt (scoreStep kws sc m) w = descScore kws (pre ++ [m]) w := by
    intro w
    rw [cnt_scoreStep, descScore_append, hInv.score_eq w]
    simp [descScore]
  have hposE := entries_pos_scoreStep kws sc m hInv.pos
  by_cases hQ : qual kws m = true ∧ m.username ∉ keysOf sc
  · rw [if_pos hQ] at hkeys
    refine ⟨hscore, ?_, ?_, ?_, hposE⟩
    · intro a
      rw [hkeys, List.mem_append, List.mem_singleton, fqi_append_one]
      cases hfa : fqi kws a pre with
      | some i =>
        constructor
        · intro _; rfl
        · intro _
          left
          exact (hInv.mem_iff a).mpr (by rw [hfa]; rfl)
      | none =>
        have hna : a ∉ keysOf sc := by
          intro hc
          have := (hInv.mem_iff a).mp hc
          rw [hfa] at this
          simp at this
        constructor
        · intro hor
          rcases hor with hc | hc
          · exact absurd hc hna
          · rw [if_pos ⟨hc.symm, hQ.1⟩]
            rfl
        · intro hs
          by_cases hcond : m.username = a ∧ qual kws m = true
          · right
            exact hcond.1.symm
          · rw [if_neg hcond] at hs
            simp at hs
    · intro a b i j hi hj hij
      rw [hkeys, idxOfA_append] at hi hj
      cases hia : idxOfA (keysOf sc) a with
      | some ia' =>
        rw [hia] at hi
        simp at hi
        cases hib : idxOfA (keysOf sc) b with
        | some ib' =>
          rw [hib] at hj
          simp at hj
          obtain ⟨Ia, Ib, hfa, hfb, hlt⟩ :=
            hInv.order a b ia' ib' hia hib (by omega)
          exact ⟨Ia, Ib, fqi_lift kws a pre m Ia hfa, fqi_lift kws b pre m Ib hfb, hlt⟩
        | none =>
          rw [hib] at hj
          simp at hj
          rcases hsing : idxOfA [m.username] b with _ | k
          · rw [hsing] at hj
            simp at hj
          · rw [hsing] at hj
            simp at hj
            obtain ⟨hnb, hk0⟩ := idxOfA_singleton_some _ _ _ hsing
            have hbnot : b ∉ keysOf sc := (idxOfA_eq_none _ _).mp hib
            have hamem : a ∈ keysOf sc := by
              by_contra hc
              have hnone := (idxOfA_eq_none (keysOf sc) a).mpr hc
              rw [hnone] at hia
              exact Option.noConfusion hia
            obtain ⟨Ia, hfa⟩ := scanInv_fqi_some kws pre sc hInv a hamem
            have hfbnone : fqi kws b pre = none :=
              scanInv_fqi_none kws pre sc hInv b hbnot
            refine ⟨Ia, pre.length, fqi_lift kws a pre m Ia hfa, ?_,
              fqi_lt_length kws a pre Ia hfa⟩
            rw [fqi_append_one, hfbnone, if_pos ⟨hnb, hQ.1⟩]
      | none =>
        rw [hia] at hi
        simp at hi
        rcases hsing : idxOfA [m.username] a with _ | k
        · rw [hsing] at hi
          simp at hi
        · rw [hsing] at hi
          simp at hi
          obtain ⟨hna, hk0⟩ := idxOfA_singleton_some _ _ _ hsing
          cases hib : idxOfA (keysOf sc) b with
          | some ib' =>
            rw [hib] at hj
            simp at hj
            have hlt2 := idxOfA_lt_length (keysOf sc) b ib' hib
            omega
          | none =>
            rw [hib] at hj
            simp at hj
            rcases hsing2 : idxOfA [m.username] b with _ | k2
            · rw [hsing2] at hj
              simp at hj
            · rw [hsing2] at hj
              simp at hj
              obtain ⟨hnb, hk20⟩ := idxOfA_singleton_some _ _ _ hsing2
              omega
    · rw [hkeys]
      refine List.Nodup.append hInv.nodupKeys (List.nodup_singleton _) ?_
      intro x hx hy
      rw [List.mem_singleton] at hy
      exact hQ.2 (hy ▸ hx)
  · rw [if_neg hQ] at hkeys
    refine ⟨hscore, ?_, ?_, ?_, hposE⟩
    · intro a
      rw [hkeys, fqi_append_one]
      cases hfa : fqi kws a pre with
      | some i =>
        constructor
        · intro _; rfl
        · intro _
          exact (hInv.mem_iff a).mpr (by rw [hfa]; rfl)
      | none =>
        have hna : a ∉ keysOf sc := by
          intro hc
          have := (hInv.mem_iff a).mp hc
          rw [hfa] at this
          simp at this
        have hcond : ¬(m.username = a ∧ qual kws m = true) := by
          intro hc
          apply hQ
          refine ⟨hc.2, ?_⟩
          rw [hc.1]
          exact hna
        rw [if_neg hcond]
        simp [hna]
    · intro a b i j hi hj hij
      rw [hkeys] at hi hj
      obtain ⟨Ia, Ib, hfa, hfb, hlt⟩ := hInv.order a b i j hi hj hij
      exact ⟨Ia, Ib, fqi_lift kws a pre m Ia hfa, fqi_lift kws b pre m Ib hfb, hlt⟩
    · rw [hkeys]
      exact hInv.nodupKeys

theorem inv_fold (kws : List String) (rest : List ChatMessage) :
    ∀ (pre : List ChatMessage) (sc : List (String × Nat)),
      ScanInv kws pre sc →
      ScanInv kws (pre ++ rest) (rest.foldl (scoreStep kws) sc) := by
  induction rest with
  | nil =>
    intro pre sc h
    simpa using h
  | cons m rest ih =>
    intro pre sc h
    have h2 := ih (pre ++ [m]) (scoreStep kws sc m) (inv_step kws pre sc m h)
    have heq : (pre ++ [m]) ++ rest = pre ++ m :: rest := by simp
    rw [heq] at h2
    exact h2

theorem inv_buildScores (kws : List String) (msgs : List ChatMessage) :
    ScanInv kws msgs (buildScores kws msgs) := by
  have h := inv_fold kws msgs [] [] (inv_nil kws)
  simpa [buildScores] using h

/-- C3: when the resolver returns `u` and another username `v` ends the scan
with the same (highest) score, `u` is the one whose first qualifying message
occurs strictly earlier in the buffer — the stable sort makes the tie-break
deterministic, by insertion order. -/
theorem findUserByDescriptor_tiebreak (msgs : List ChatMessage) (d u v : String)
    (hu : findUserByDescriptor msgs d = some u)
    (hne : v ≠ u)
    (hscore : descScore (keywordsFor d) msgs v = descScore (keywordsFor d) msgs u) :
    ∃ i j, fqi (keywordsFor d) u msgs = some i ∧
      fqi (keywordsFor d) v msgs = some j ∧ i < j := by
  have hInv := inv_buildScores (keywordsFor d) msgs
  by_cases hemp : (buildScores (keywordsFor d) msgs).isEmpty
  · unfold findUserByDescriptor at hu
    rw [if_pos hemp] at hu
    exact Option.noConfusion hu
  · unfold findUserByDescriptor at hu
    rw [if_neg hemp, head?_sortByScoreDesc] at hu
    obtain ⟨e, he, heu⟩ := Option.map_eq_some'.mp hu
    obtain ⟨P, Q, hsplit, hP, hmax⟩ := firstMax_split _ e he
    have hmem : e ∈ buildScores (keywordsFor d) msgs := by
      rw [hsplit]
      exact List.mem_append_right _ (List.mem_cons_self _ _)
    have hepos : 1 ≤ e.2 := hInv.pos e hmem
    have he2 : (e.1, e.2) ∈ buildScores (keywordsFor d) msgs := hmem
    have hcu : cnt (buildScores (keywordsFor d) msgs) u = e.2 := by
      have hc := cnt_of_mem_nodup _ e.1 e.2 hInv.nodupKeys he2
      rw [heu] at hc
      exact hc
    have hcv : cnt (buildScores (keywordsFor d) msgs) v = e.2 := by
      rw [hInv.score_eq v, hscore, ← hInv.score_eq u, hcu]
    have hvmem : v ∈ keysOf (buildScores (keywordsFor d) msgs) := by
      by_contra hc
      rw [cnt_eq_zero_of_not_mem _ v hc] at hcv
      omega
    have hvent : (v, e.2) ∈ buildScores (keywordsFor d) msgs := by
      have hm := entry_mem_of_mem_keys _ v hvmem
      rw [hcv] at hm
      exact hm
    have hvQ : (v, e.2) ∈ Q := by
      rw [hsplit] at hvent
      rcases List.mem_append.mp hvent with hin | hin
      · exact absurd (hP _ hin) (by simp)
      · rcases List.mem_cons.mp hin with heq | hin
        · have hv1 : v = e.1 := congrArg Prod.fst heq
          exact absurd (hv1.trans heu) hne
        · exact hin
    have hkeyseq : keysOf (buildScores (keywordsFor d) msgs) =
        keysOf P ++ e.1 :: keysOf Q := by
      rw [hsplit]
      simp [keysOf]
    have hnodup := hInv.nodupKeys
    rw [hkeyseq] at hnodup
    have hmid := List.nodup_middle.mp hnodup
    rw [List.nodup_cons] at hmid
    have hu_not : e.1 ∉ keysOf P ∧ e.1 ∉ keysOf Q := by
      have h1 := hmid.1
      rw [List.mem_append] at h1
      push_neg at h1
      exact h1
    have hPQnodup : (keysOf P ++ keysOf Q).Nodup := hmid.2
    have hvQk : v ∈ keysOf Q := by
      simp only [keysOf, List.mem_map]
      exact ⟨(v, e.2), hvQ, rfl⟩
    have hv_notP : v ∉ keysOf P := by
      intro hc
      exact (List.nodup_append.mp hPQnodup).2.2 hc hvQk
    have hvne1 : ¬ e.1 = v := by
      intro hc
      apply hne
      rw [← hc]
      exact heu
    have hidxu : idxOfA (keysOf (buildScores (keywordsFor d) msgs)) u =
        some (keysOf P).length := by
      rw [hkeyseq, ← heu, idxOfA_append, (idxOfA_eq_none _ _).mpr hu_not.1]
      simp [idxOfA]
    obtain ⟨j0, hj0⟩ := idxOfA_some_of_mem _ _ hvQk
    have hidxv : idxOfA (keysOf (buildScores (keywordsFor d) msgs)) v =
        some (j0 + 1 + (keysOf P).length) := by
      rw [hkeyseq, idxOfA_append, (idxOfA_eq_none _ _).mpr hv_notP]
      simp [idxOfA, hvne1, hj0]
    exact hInv.order u v _ _ hidxu hidxv (by omega)

/-- C3 witness: a deterministic two-user tie on the toxic keyword "idiot". -/
theorem findUserByDescriptor_tiebreak_witness :
    ∃ i j, fqi (keywordsFor "toxic") "alice" tieFixture = some i ∧
      fqi (keywordsFor "toxic") "bob" tieFixture = some j ∧ i < j :=
  findUserByDescriptor_tiebreak tieFixture "toxic" "alice" "bob"
    (by decide) (by decide) (by decide)

/-! ## C8: the literal-username path of `resolveModerationTarget` -/

theorem listStartsWith_subset (s p : List Char)
    (h : listStartsWith s p = true) : ∀ c ∈ p, c ∈ s := by
  induction p generalizing s with
  | nil => intro c hc; simp at hc
  | cons x p ih =>
    cases s with
    | nil => simp [listStartsWith] at h
    | cons y s =>
      simp only [listStartsWith, Bool.and_eq_true, decide_eq_true_eq] at h
      intro c hc
      rcases List.mem_cons.mp hc with hc | hc
      · rw [hc, ← h.1]
        exact List.mem_cons_self _ _
      · exact List.mem_cons_of_mem _ (ih s h.2 c hc)

theorem listContains_subset (s p : List Char)
    (h : listContains s p = true) : ∀ c ∈ p, c ∈ s := by
  induction s with
  | nil =>
    intro c hc
    cases p with
    | nil => simp at hc
    | cons x p => simp [listContains, listStartsWith] at h
  | cons y s ih =>
    simp only [listContains, Bool.or_eq_true] at h
    intro c hc
    rcases h with h | h
    · exact listStartsWith_subset _ _ h c hc
    · exact List.mem_cons_of_mem _ (ih h c hc)

theorem isJsSpace_toLower_ne_u (c : Char) (hc : isJsSpace c = true) :
    ¬ Char.toLower c = 'u' := by
  have h6 : c = ' ' ∨ c = '\t' ∨ c = '\n' ∨ c = '\r' ∨ c = '\x0b' ∨ c = '\x0c' := by
    by_contra hno
    push_neg at hno
    obtain ⟨h1, h2, h3, h4, h5, h6⟩ := hno
    simp [isJsSpace, h1, h2, h3, h4, h5, h6] at hc
  rcases h6 with rfl | rfl | rfl | rfl | rfl | rfl <;> decide

theorem trimL_ne_nil_of_exists (l : List Char)
    (h : ∃ c ∈ l, isJsSpace c = false) : trimL l ≠ [] := by
  intro hnil
  obtain ⟨c, hcl, hcf⟩ := h
  unfold trimL at hnil
  rw [List.reverse_eq_nil_iff, List.dropWhile_eq_nil_iff] at hnil
  have hdrop : ∀ x ∈ l.dropWhile isJsSpace, isJsSpace x = true := by
    intro x hx
    exact hnil x (List.mem_reverse.mpr hx)
  have hall : ∀ x ∈ l, isJsSpace x = true := by
    intro x hx
    rw [← List.takeWhile_append_dropWhile (p := isJsSpace) (l := l)] at hx
    rcases List.mem_append.mp hx with hx | hx
    · exact List.mem_takeWhile_imp hx
    · exact hdrop x hx
  rw [hall c hcl] at hcf
  exact Bool.noConfusion hcf

theorem trimS_ne_empty_of_phrase (input : String)
    (h : strContains (lowerS input) "user named" = true) : ¬ trimS input = "" := by
  intro hc
  have hnil : trimL input.data = [] := congrArg String.data hc
  have hu : ('u' : Char) ∈ (lowerS input).data :=
    listContains_subset _ _ h 'u' (by decide)
  have hex : ∃ c ∈ input.data, Char.toLower c = 'u' := by
    have hdata : (lowerS input).data = input.data.map Char.toLower := rfl
    rw [hdata] at hu
    simpa using List.mem_map.mp hu
  obtain ⟨c, hcl, hcu⟩ := hex
  have hcf : isJsSpace c = false := by
    by_contra hcc
    rw [Bool.not_eq_false] at hcc
    exact isJsSpace_toLower_ne_u c hcc hcu
  exact trimL_ne_nil_of_exists input.data ⟨c, hcl, hcf⟩ hnil

theorem trimS_ne_empty_of_literal (input : String)
    (h : isLiteralShape input = true) : ¬ trimS input = "" := by
  intro hc
  have hnil : trimL input.data = [] := congrArg String.data hc
  simp only [isLiteralShape] at h
  rw [hnil] at h
  simp at h

/-- C8: on the literal path — input containing a "user named" phrase or
matching the literal-username shape — the resolver extracts the candidate
(the input with the `/.*user named\s+/` span removed, trimmed) and returns
the exact (canonically cased) username of the first buffered message whose
username case-insensitively contains the candidate, or the candidate itself
when no buffered username matches. -/
theorem resolveTarget_literal_path (msgs : List ChatMessage) (input : String)
    (h : strContains (lowerS input) "user named" = true ∨
      isLiteralShape input = true) :
    (∃ m, msgs.find? (fun m => strContains (lowerS m.username)
        (lowerS (trimS (replaceUserNamed input)))) = some m ∧
      resolveModerationTarget msgs (some input) = some m.username) ∨
    (msgs.find? (fun m => strContains (lowerS m.username)
        (lowerS (trimS (replaceUserNamed input)))) = none ∧
      resolveModerationTarget msgs (some input) =
        some (trimS (replaceUserNamed input))) := by
  have hne : ¬ trimS input = "" := by
    rcases h with h | h
    · exact trimS_ne_empty_of_phrase input h
    · exact trimS_ne_empty_of_literal input h
  have hcond : (strContains (lowerS input) "user named" ||
      isLiteralShape input) = true := by
    rcases h with h | h <;> simp [h]
  simp only [resolveModerationTarget]
  rw [if_neg hne, if_pos hcond]
  cases hf : msgs.find? (fun m => strContains (lowerS m.username)
      (lowerS (trimS (replaceUserNamed input)))) with
  | some m =>
    left
    exact ⟨m, rfl, rfl⟩
  | none =>
    right
    exact ⟨rfl, rfl⟩

/-- C8 witness: a "user named" phrase matched against a canonically cased
buffered username, discharging the claim's hypothesis at a concrete input. -/
theorem resolveTarget_literal_path_witness :
    (∃ m, ([⟨"CoolBob99", "hi", 0⟩] : List ChatMessage).find? (fun m =>
        strContains (lowerS m.username)
          (lowerS (trimS (replaceUserNamed "user named bob")))) = some m ∧
      resolveModerationTarget [⟨"CoolBob99", "hi", 0⟩]
        (some "user named bob") = some m.username) ∨
    (([⟨"CoolBob99", "hi", 0⟩] : List ChatMessage).find? (fun m =>
        strContains (lowerS m.username)
          (lowerS (trimS (replaceUserNamed "user named bob")))) = none ∧
      resolveModerationTarget [⟨"CoolBob99", "hi", 0⟩]
        (some "user named bob") = some (trimS (replaceUserNamed "user named bob"))) :=
  resolveTarget_literal_path [⟨"CoolBob99", "hi", 0⟩] "user named bob"
    (Or.inl (by decide))

/-- C10 witness: a concrete truncation and a concrete caught error. -/
theorem safeJsonStringify_spec_witness :
    safeJsonStringify (.ok "0123456789") 4 =
      substring0 "0123456789" 4 ++ "\n\n[Output truncated due to length]" ∧
    safeJsonStringify (.error "circular structure") 4 =
      "[JSON stringify error: " ++ "circular structure" ++ "]" :=
  ⟨(safeJsonStringify_spec (.ok "0123456789") 4).1 "0123456789" rfl (by decide),
   (safeJsonStringify_spec (.error "circular structure") 4).2.2
     "circular structure" rfl⟩

end TwitchMCP
